import Mathlib

/-!
Verification development for the irodsfs-common I/O layer.

This file gives a shallow embedding, in Lean 4, of the pure cores of the
block/offset arithmetic (utils/file_block_helper.go), the per-block transfer
rendezvous (FileBlockTransfer), the prefetch decision (Prefetcher), the
buffered write coalescer (SyncBufferedWriter), the asynchronous writers
(the channel-based AsyncWriter and the older buffer-entry-group AsyncWriter),
and the per-file block store facade (FileBlockStore), together with theorems
settling the specification claims about them.

Go machine integers (int, int64) are modelled as Lean Int; Go integer
division truncates toward zero, which is Int.tdiv. Byte slices are modelled
as List Nat. Concurrency is modelled either by explicit state passing
(snapshot semantics for operations that run under a mutex) or by a labelled
transition relation whose steps are the atomic actions of the goroutines.
-/

namespace BlockHelper

/-- Min from utils/file_block_helper.go: returns the smaller of two int64. -/
def Min (val1 val2 : Int) : Int :=
  if val1 ≤ val2 then val1 else val2

/-- Max from utils/file_block_helper.go: returns the larger of two int64. -/
def Max (val1 val2 : Int) : Int :=
  if val1 ≥ val2 then val1 else val2

/-- GetBlockStartOffset: blockID * blockSize. The receiver field
helper.blockSize is passed explicitly as the first argument. -/
def GetBlockStartOffset (blockSize blockID : Int) : Int :=
  blockID * blockSize

/-- GetBlockIDForOffset: offset / blockSize with Go division
(truncation toward zero), hence Int.tdiv. -/
def GetBlockIDForOffset (blockSize offset : Int) : Int :=
  Int.tdiv offset blockSize

/-- IsAlignedToBlockStart from utils/file_block_helper.go. -/
def IsAlignedToBlockStart (blockSize offset : Int) : Bool :=
  GetBlockStartOffset blockSize (GetBlockIDForOffset blockSize offset) = offset

/-- GetBlockRange from utils/file_block_helper.go: the sub-range of the
window [offset, offset+length) that falls inside block blockID, or (0, 0)
when the window does not meet the block. -/
def GetBlockRange (blockSize offset length blockID : Int) : Int × Int :=
  let blockStartOffset := GetBlockStartOffset blockSize blockID
  if blockStartOffset + blockSize ≤ offset ∨ blockStartOffset ≥ offset + length then
    (0, 0)
  else
    let startOffset := Max blockStartOffset offset
    let endOffset := Min (blockStartOffset + blockSize) (offset + length)
    (startOffset, endOffset - startOffset)

/-- GetFirstAndLastBlockID from utils/file_block_helper.go: the block of
offset and the block of offset+length-1, with the second clamped up to
the first when it is smaller. -/
def GetFirstAndLastBlockID (blockSize offset length : Int) : Int × Int :=
  let first := GetBlockIDForOffset blockSize offset
  let last := GetBlockIDForOffset blockSize (offset + (length - 1))
  if last < first then (first, first) else (first, last)

/-- Loop body of GetBlockIDs: the ids from first to last inclusive. -/
def blockIDLoop (first last : Int) : List Int :=
  if first ≤ last then first :: blockIDLoop (first + 1) last else []
termination_by (last + 1 - first).toNat
decreasing_by omega

/-- GetBlockIDs from utils/file_block_helper.go. -/
def GetBlockIDs (blockSize offset length : Int) : List Int :=
  let fl := GetFirstAndLastBlockID blockSize offset length
  blockIDLoop fl.1 fl.2

/-- GetLastBlockID from utils/file_block_helper.go: block of the last byte. -/
def GetLastBlockID (blockSize size : Int) : Int :=
  GetBlockIDForOffset blockSize (size - 1)

end BlockHelper

namespace BlockTransfer

/-- State of a FileBlockTransfer (src/unnamed/part_002): the append-only
buffer and the eof/completed/failed flags. The mutex and condition variable
are not part of the state; every operation below is the body of one
critical section. -/
structure State where
  blockID : Int
  buffer : List Nat
  eof : Bool
  completed : Bool
  failed : Bool

/-- NewFileBlockTransfer: fresh in-flight transfer for a block. -/
def NewFileBlockTransfer (blockID : Int) : State :=
  { blockID := blockID, buffer := [], eof := false, completed := false, failed := false }

/-- MarkFailed: sets failed unless the transfer is already completed. -/
def MarkFailed (t : State) : State :=
  if t.completed = false then { t with failed := true } else t

/-- MarkCompleted: sets completed, clears failed, records eof. -/
def MarkCompleted (t : State) (eof : Bool) : State :=
  { t with completed := true, failed := false, eof := eof }

/-- Write: appends bytes to the transfer buffer (no state guard in the source). -/
def Write (t : State) (buffer : List Nat) : State :=
  { t with buffer := t.buffer ++ buffer }

/-- WaitForData evaluated against one snapshot of the state: some b when the
call returns with result b at this state, none when the condition-variable
loop would block. The loop body is: while buffer.Len() < size, return true
if completed, return false if failed, otherwise wait; after the loop return
true. -/
def WaitForDataResult (t : State) (size : Nat) : Option Bool :=
  if t.buffer.length < size then
    if t.completed = true then some true
    else if t.failed = true then some false
    else none
  else
    some true

/-- One mutating operation on a transfer, for reasoning about histories. -/
inductive Op where
  | write (buffer : List Nat)
  | markFailed
  | markCompleted (eof : Bool)

/-- Apply one operation. -/
def applyOp (t : State) : Op → State
  | .write buffer => Write t buffer
  | .markFailed => MarkFailed t
  | .markCompleted eof => MarkCompleted t eof

/-- Apply a sequence of operations in order. -/
def applyOps (t : State) : List Op → State
  | [] => t
  | op :: rest => applyOps (applyOp t op) rest

end BlockTransfer

namespace Prefetch

/-- Bit length of a natural number, fuel-based so that it reduces in the
kernel: bitLenAux fuel n is the number of binary digits of n (0 for 0). -/
def bitLenAux : Nat → Nat → Nat
  | 0, _ => 0
  | _ + 1, 0 => 0
  | fuel + 1, n + 1 => bitLenAux fuel ((n + 1) / 2) + 1

/-- Bit length of a natural number. -/
def bitLen (n : Nat) : Nat :=
  bitLenAux n n

/-- Round a natural number to at most 24 significant binary digits with
round-to-nearest, ties-to-even: this is exactly how IEEE-754 binary32
(float32) rounds an integer-valued real into its 24-bit significand. -/
def roundNearest24 (n : Nat) : Nat :=
  let k := bitLen n
  if k ≤ 24 then n
  else
    let s := k - 24
    let q := n / 2 ^ s
    let r := n % 2 ^ s
    let half := 2 ^ (s - 1)
    let m := if half < r then q + 1 else if r < half then q else if q % 2 = 1 then q + 1 else q
    m * 2 ^ s

/-- Numerator of the exact value of the Go constant
prefetchTriggerRatio float32 = 0.3: the closest float32 to 0.3 is exactly
5033165 / 2^24 = 0.300000011920928955078125. -/
def float32ThreeTenthsNum : Nat := 5033165

/-- The Go expression int(float32(blockSize) * prefetchTriggerRatio),
computed exactly: float32(blockSize) is roundNearest24 blockSize (an
integer-valued float32); the float32 product rounds the exact product
(roundNearest24 blockSize * 5033165) / 2^24 to 24 significant digits, and
the scale-invariant rounding of N / 2^24 is roundNearest24 N / 2^24; the
final int conversion truncates, which for a nonnegative value is floor,
i.e. natural division by 2^24. -/
def triggerPointInt (blockSize : Nat) : Nat :=
  roundNearest24 (roundNearest24 blockSize * float32ThreeTenthsNum) / 2 ^ 24

/-- State of a Prefetcher (src/unnamed/part_010): the memo of block ids
already handed out, and the block size of its FileBlockHelper. -/
structure Prefetcher where
  prefetchMap : List Int
  blockSize : Nat

/-- NewPrefetcher: empty memo. -/
def NewPrefetcher (blockSize : Nat) : Prefetcher :=
  { prefetchMap := [], blockSize := blockSize }

/-- Determine from src/unnamed/part_010: decide which block to prefetch for
a read at offset in a file of the given size. Returns the list of block ids
and the updated prefetcher (the Go method mutates the receiver's memo). -/
def Determine (pf : Prefetcher) (offset size : Int) : List Int × Prefetcher :=
  let B : Int := pf.blockSize
  let blockID := BlockHelper.GetBlockIDForOffset B offset
  let blockStartOffset := BlockHelper.GetBlockStartOffset B blockID
  let inBlockOffset := offset - blockStartOffset
  let lastBlockID := BlockHelper.GetLastBlockID B size
  if inBlockOffset < (triggerPointInt pf.blockSize : Int) then
    ([], pf)
  else
    let targetBlockID := if blockID ≥ lastBlockID then 0 else blockID + 1
    if targetBlockID ∈ pf.prefetchMap then
      ([], pf)
    else
      ([targetBlockID], { pf with prefetchMap := targetBlockID :: pf.prefetchMap })

/-- Run a sequence of Determine calls, threading the memo, collecting the
returned id lists. -/
def DetermineRun (pf : Prefetcher) : List (Int × Int) → List (List Int)
  | [] => []
  | (offset, size) :: rest =>
    let r := Determine pf offset size
    r.1 :: DetermineRun r.2 rest

end Prefetch

namespace BufferedW

/-- State of a SyncBufferedWriter (src/io/sync_buffered_writer.go; the
BufferedWriter of src/unnamed/part_010 is the same coalescing algorithm with
bufferSize fixed to bufferedWriterBufferSizeMax). The base writer is
modelled by the trace baseWrites of the positional writes it has received;
its WriteAt is assumed to succeed (error returns in the source propagate the
base writer's failures and do not change the coalescing logic). -/
structure State where
  buffer : List Nat
  currentBufferStartOffset : Int
  bufferSize : Nat
  baseWrites : List (Int × List Nat)

/-- High-water constant bufferedWriterBufferSizeMax of src/unnamed/part_010:
8 MiB. -/
def bufferedWriterBufferSizeMax : Nat := 1024 * 1024 * 8

/-- NewSyncBufferedWriter: empty buffer, start offset 0. -/
def NewSyncBufferedWriter (bufferSize : Nat) : State :=
  { buffer := [], currentBufferStartOffset := 0, bufferSize := bufferSize, baseWrites := [] }

/-- spillBuffer: when the buffer is non-empty, hand it to the base writer at
currentBufferStartOffset and reset; the start offset is reset to 0 in both
cases (in the source the reset is after the if). -/
def spillBuffer (w : State) : State :=
  if 0 < w.buffer.length then
    { w with
      baseWrites := w.baseWrites ++ [(w.currentBufferStartOffset, w.buffer)],
      buffer := [],
      currentBufferStartOffset := 0 }
  else
    { w with currentBufferStartOffset := 0 }

/-- WriteAt from src/io/sync_buffered_writer.go: empty or negative writes
are ignored; a write contiguous with the buffered run is appended; a
non-contiguous write spills the buffer and starts a new run; finally the
buffer is spilled if it has reached bufferSize. -/
def WriteAt (w : State) (data : List Nat) (offset : Int) : State :=
  if data.length = 0 ∨ offset < 0 then w
  else
    let w1 :=
      if 0 < w.buffer.length then
        if w.currentBufferStartOffset + w.buffer.length ≠ offset then
          let w2 := spillBuffer w
          { w2 with buffer := w2.buffer ++ data, currentBufferStartOffset := offset }
        else
          { w with buffer := w.buffer ++ data }
      else
        { w with buffer := w.buffer ++ data, currentBufferStartOffset := offset }
    if w1.bufferSize ≤ w1.buffer.length then spillBuffer w1 else w1

/-- Flush: spill any outstanding bytes (the subsequent base Flush issues no
positional write). -/
def Flush (w : State) : State :=
  spillBuffer w

/-- Issue a strictly contiguous run of writes: each write starts where the
previous one ended. -/
def writeRun (w : State) (offset : Int) : List (List Nat) → State
  | [] => w
  | d :: ds => writeRun (WriteAt w d offset) (offset + d.length) ds

/-- A trace telescopes from base when each call's offset is base plus the
lengths of the calls before it. -/
def telescopes : List (Int × List Nat) → Int → Prop
  | [], _ => True
  | (o, d) :: rest, base => o = base ∧ telescopes rest (base + d.length)

/-- Total bytes delivered by a trace. -/
def traceBytes (tr : List (Int × List Nat)) : Nat :=
  (tr.map (fun e => e.2.length)).sum

end BufferedW

namespace AsyncW

/-- One queued write of the channel-based AsyncWriter
(src/unnamed/part_009): the target offset and the cloned bytes. -/
structure WriteBlock where
  offset : Int
  data : List Nat
deriving DecidableEq

/-- Error produced by WriteAt when a pending error exists: the source wraps
the recorded lastError in a new error carrying the path, offset and length
(xerrors with a wrapping verb), so the cause is recoverable from it. -/
inductive WriteErr (E : Type) where
  | scheduleFailed (offset : Int) (length : Nat) (cause : E)
deriving DecidableEq

/-- State of the channel-based AsyncWriter (src/unnamed/part_009).
queue models the contents of the pendingWriteBlock channel, created with
capacity 10; waitCount models the asyncWriteBlockWaiter wait-group counter;
baseWrites is the trace of successful positional writes the base writer has
received. E is the abstract type of base-writer errors. -/
structure State (E : Type) where
  queue : List WriteBlock
  waitCount : Nat
  lastError : Option E
  baseWrites : List WriteBlock

/-- Initial state built by NewAsyncWriter. -/
def init (E : Type) : State E :=
  { queue := [], waitCount := 0, lastError := none, baseWrites := [] }

/-- Labels of the atomic actions of the writer's producer and worker. -/
inductive Label (E : Type) where
  | submit (data : List Nat) (offset : Int)
  | workerSkip
  | workerWrite
  | workerWriteFail (e : E)

/-- Atomic steps of the AsyncWriter.

submit is the enqueueing path of WriteAt: non-empty data, nonnegative
offset, no pending error, and the channel send — which requires a free slot
in the capacity-10 channel (a full channel blocks the producer). The
wait-group is incremented together with the send.

The worker steps are the iterations of the goroutine of startAsyncWriter:
it pops a block; with lastError set it skips the block and calls Done
(workerSkip); otherwise it writes the block to the base writer (if the
block is non-empty) and calls Done, either succeeding (workerWrite) or
recording the first error (workerWriteFail, which stores the wrapped base
error e into lastError). -/
inductive Step {E : Type} : State E → Label E → State E → Prop where
  | submit (s : State E) (data : List Nat) (offset : Int) :
      data ≠ [] → 0 ≤ offset → s.lastError = none → s.queue.length < 10 →
      Step s (.submit data offset)
        { s with queue := s.queue ++ [{ offset := offset, data := data }],
                 waitCount := s.waitCount + 1 }
  | workerSkip (s : State E) (e : E) (b : WriteBlock) (rest : List WriteBlock) :
      s.lastError = some e → s.queue = b :: rest →
      Step s .workerSkip { s with queue := rest, waitCount := s.waitCount - 1 }
  | workerWrite (s : State E) (b : WriteBlock) (rest : List WriteBlock) :
      s.lastError = none → s.queue = b :: rest →
      Step s .workerWrite
        { s with queue := rest, waitCount := s.waitCount - 1,
                 baseWrites := s.baseWrites ++ if b.data.length = 0 then [] else [b] }
  | workerWriteFail (s : State E) (b : WriteBlock) (rest : List WriteBlock) (e : E) :
      s.lastError = none → s.queue = b :: rest → b.data.length ≠ 0 →
      Step s (.workerWriteFail e)
        { s with queue := rest, waitCount := s.waitCount - 1, lastError := some e }

/-- States reachable from the freshly constructed writer. -/
inductive Reachable {E : Type} : State E → Prop where
  | init : Reachable (init E)
  | step {s : State E} {l : Label E} {s2 : State E} :
      Reachable s → Step s l s2 → Reachable s2

/-- WriteAt from src/unnamed/part_009, sequential view: empty or negative
writes return (0, nil) at once; with a pending lastError the call fails
fast, returning the wrapped error without touching the queue; otherwise the
data is cloned, the wait-group incremented and the block sent on the
channel — none models the producer blocking on a full channel. -/
def writeAt {E : Type} (s : State E) (data : List Nat) (offset : Int) :
    Option (State E × Except (WriteErr E) Nat) :=
  if data.length = 0 ∨ offset < 0 then some (s, .ok 0)
  else
    match s.lastError with
    | some e => some (s, .error (.scheduleFailed offset data.length e))
    | none =>
      if s.queue.length < 10 then
        some ({ s with queue := s.queue ++ [{ offset := offset, data := data }],
                       waitCount := s.waitCount + 1 },
              .ok data.length)
      else none

/-- The worker loop after an error has been recorded: every queued block is
popped, skipped (no base write) and its wait-group slot released, until the
queue is empty. Outside the error mode the worker performs base writes,
modelled by Step.workerWrite and Step.workerWriteFail. -/
def workerDrainAfterError {E : Type} (s : State E) : State E :=
  match _h : s.queue with
  | [] => s
  | _ :: rest =>
    if s.lastError.isSome then
      workerDrainAfterError { s with queue := rest, waitCount := s.waitCount - 1 }
    else s
termination_by s.queue.length
decreasing_by simp_all

/-- Flush from src/unnamed/part_009, after the wait-group has drained: the
base writer's Flush error, if any, is returned first, otherwise lastError. -/
def flushResult {E : Type} (s : State E) (innerFlushErr : Option E) : Option E :=
  match innerFlushErr with
  | some fe => some fe
  | none => s.lastError

end AsyncW

namespace AsyncWBuf

/-- Error returned by WriteAt of the buffer-entry-group AsyncWriter:
tooLarge is the CreateEntry rejection of data larger than the RAM buffer's
size cap; pending e is the recorded first pending error, returned as-is by
GetPendingError. -/
inductive BufErr (E : Type) where
  | tooLarge
  | pending (e : E)
deriving DecidableEq

/-- State of the older AsyncWriter of src/io/async_writer.go: entries models
the RAM buffer entry group (key is the write offset; the Go key is the
decimal string of the offset), queue models the infinite write queue of
entry keys (channels.NewInfiniteChannel buffers without bound), waitCount
the writeWaitTasks wait-group, pendingErrors the recorded async errors in
order. -/
structure State (E : Type) where
  entries : List (Int × List Nat)
  queue : List Int
  waitCount : Nat
  pendingErrors : List E

/-- WriteAt from src/io/async_writer.go lines 94-128, sequential view, with
cap the RAM buffer's size cap: empty or negative writes return (0, nil);
CreateEntry rejects oversized data; otherwise the entry is stored, the
wait-group incremented and the key enqueued, and only then is the pending
error checked — a pending error is returned, but the data remains stored
and scheduled. -/
def writeAt {E : Type} (cap : Nat) (s : State E) (data : List Nat) (offset : Int) :
    State E × Except (BufErr E) Nat :=
  if data.length = 0 ∨ offset < 0 then (s, .ok 0)
  else if cap < data.length then (s, .error .tooLarge)
  else
    let s1 : State E :=
      { s with entries := s.entries ++ [(offset, data)],
               queue := s.queue ++ [offset],
               waitCount := s.waitCount + 1 }
    match s.pendingErrors.head? with
    | some e => (s1, .error (.pending e))
    | none => (s1, .ok data.length)

end AsyncWBuf

namespace BlockStore

/-- A cached file block (src/io/async_cache_through_reader.go, second part):
block id, payload bytes, eof flag. -/
structure FileBlock where
  blockID : Int
  buffer : List Nat
  eof : Bool

/-- Cache key: the Go key is the string path:checksum:blockID; it is
modelled as the triple itself (the claims never depend on collisions of the
string rendering). -/
abbrev CacheKey : Type := String × String × Int

/-- One shared-cache entry: key, group and payload. -/
structure CEntry where
  key : CacheKey
  group : String
  data : List Nat

/-- The shared cache store, modelled as the list of entries, most recent
first; CreateEntry with an existing key overwrites it (lookup finds the
newest). -/
abbrev CacheStore : Type := List CEntry

/-- CreateEntry: prepend the new entry (overwrite semantics under lookup). -/
def CreateEntry (cs : CacheStore) (key : CacheKey) (group : String) (data : List Nat) :
    CacheStore :=
  { key := key, group := group, data := data } :: cs

/-- GetEntry's payload: the newest entry with the key, if any. -/
def lookupEntry (cs : CacheStore) (key : CacheKey) : Option (List Nat) :=
  (cs.find? fun en => decide (en.key = key)).map (fun en => en.data)

/-- State of a FileBlockStore (per-open-file facade): path, checksum, block
size, the small in-process LRU (capacity readBlockStoreCache = 5) and the
optional shared cache. -/
structure State where
  path : String
  checksum : String
  blockSize : Nat
  lruCache : List (Int × FileBlock)
  cacheStore : Option CacheStore

/-- Key schema of makeCacheKey. -/
def makeCacheKey (store : State) (blockID : Int) : CacheKey :=
  (store.path, store.checksum, blockID)

/-- Add to the small LRU: most recent first, duplicates removed, capacity 5
(hashicorp golang-lru with size readBlockStoreCache). -/
def lruAdd (lru : List (Int × FileBlock)) (blockID : Int) (block : FileBlock) :
    List (Int × FileBlock) :=
  ((blockID, block) :: lru.filter fun p => !decide (p.1 = blockID)).take 5

/-- Put from src/io/async_cache_through_reader.go lines 579-610: insert the
block into the small LRU; when a shared cache is attached, create a cache
entry for the block under group = path, and when the block is full
(buffer length = blockSize) and marked eof, create an additional zero-length
entry under the key for blockID + 1 (the EOF sentinel). The error paths of
the underlying cache CreateEntry are not modelled (the claim concerns the
successful path). -/
def Put (store : State) (block : FileBlock) : State :=
  let store1 := { store with lruCache := lruAdd store.lruCache block.blockID block }
  match store.cacheStore with
  | none => store1
  | some cs =>
    let cs1 := CreateEntry cs (makeCacheKey store block.blockID) store.path block.buffer
    if block.buffer.length = store.blockSize ∧ block.eof = true then
      { store1 with
        cacheStore :=
          some (CreateEntry cs1 (makeCacheKey store (block.blockID + 1)) store.path []) }
    else
      { store1 with cacheStore := some cs1 }

end BlockStore

namespace BlockHelper

/-- Unfolding lemma: Max is the lattice max on Int. -/
theorem Max_eq (a b : Int) : Max a b = max a b := by
  unfold Max
  split <;> omega

/-- Unfolding lemma: Min is the lattice min on Int. -/
theorem Min_eq (a b : Int) : Min a b = min a b := by
  unfold Min
  split <;> omega

/-- The id loop produces the consecutive ids from first to last. -/
theorem blockIDLoop_eq_range :
    ∀ (n : Nat) (first last : Int), (last + 1 - first).toNat = n →
      blockIDLoop first last = (List.range n).map (fun k : Nat => first + (k : Int)) := by
  intro n
  induction n with
  | zero =>
    intro first last h
    rw [blockIDLoop, if_neg (by omega)]
    rfl
  | succ n ih =>
    intro first last h
    rw [blockIDLoop, if_pos (by omega)]
    rw [ih (first + 1) last (by omega)]
    rw [List.range_succ_eq_map]
    simp only [List.map_cons, List.map_map]
    refine List.cons_eq_cons.mpr ⟨by omega, ?_⟩
    apply List.map_congr_left
    intro a _
    simp only [Function.comp_apply, Nat.succ_eq_add_one]
    push_cast
    ring

/-- Truncating division is monotone in the numerator for a positive
divisor, given a nonnegative upper point (all that the claims need). -/
theorem tdiv_le_tdiv_of_le {a b c : Int} (hc : 0 < c) (hb : 0 ≤ b) (h : a ≤ b) :
    a.tdiv c ≤ b.tdiv c := by
  rcases le_or_lt 0 a with ha | ha
  · rw [Int.tdiv_eq_ediv ha (le_of_lt hc), Int.tdiv_eq_ediv hb (le_of_lt hc)]
    exact Int.ediv_le_ediv hc h
  · have h1 : a.tdiv c ≤ 0 := by
      have hneg : a.tdiv c = -((-a).tdiv c) := by
        have h2 := Int.neg_tdiv (-a) c
        rw [neg_neg] at h2
        omega
      have : 0 ≤ (-a).tdiv c := Int.tdiv_nonneg (by omega) (le_of_lt hc)
      omega
    have h2 : 0 ≤ b.tdiv c := Int.tdiv_nonneg hb (le_of_lt hc)
    omega

/-- C5: for offset ≥ 0, length > 0, block size B > 0 and any block id,
GetBlockRange returns (0, 0) exactly when block id does not intersect
[offset, offset+length); otherwise it returns the start
max(id*B, offset) and the length min(id*B + B, offset+length) - start,
and both the start and start + length lie within the block window
[id*B, id*B + B). -/
theorem getBlockRange_window (B offset length blockID : Int)
    (hoff : 0 ≤ offset) (hlen : 0 < length) (hB : 0 < B) :
    (GetBlockRange B offset length blockID = (0, 0) ↔
      ¬(blockID * B < offset + length ∧ offset < blockID * B + B)) ∧
    ((blockID * B < offset + length ∧ offset < blockID * B + B) →
      (GetBlockRange B offset length blockID).1 = max (blockID * B) offset ∧
      (GetBlockRange B offset length blockID).2 =
        min (blockID * B + B) (offset + length) - max (blockID * B) offset ∧
      blockID * B ≤ (GetBlockRange B offset length blockID).1 ∧
      (GetBlockRange B offset length blockID).1 + (GetBlockRange B offset length blockID).2 ≤
        blockID * B + B) := by
  simp only [GetBlockRange, GetBlockStartOffset, Max_eq, Min_eq]
  generalize blockID * B = S
  by_cases hcond : S + B ≤ offset ∨ S ≥ offset + length
  · rw [if_pos hcond]
    refine ⟨⟨fun _ => by omega, fun _ => rfl⟩, fun hint => absurd hint (by omega)⟩
  · rw [if_neg hcond]
    push_neg at hcond
    constructor
    · rw [Prod.mk.injEq]
      constructor
      · intro ⟨h1, h2⟩
        omega
      · intro hno
        exact absurd ⟨by omega, by omega⟩ hno
    · intro _
      refine ⟨rfl, rfl, ?_, ?_⟩ <;> omega

/-- C5 witness: a concrete intersecting call. -/
theorem getBlockRange_window_witness :
    (0 : Int) ≤ 5 ∧ (0 : Int) < 20 ∧ (0 : Int) < 10 ∧
    (GetBlockRange 10 5 20 1 = (0, 0) ↔
      ¬((1 : Int) * 10 < 5 + 20 ∧ (5 : Int) < 1 * 10 + 10)) ∧
    (((1 : Int) * 10 < 5 + 20 ∧ (5 : Int) < 1 * 10 + 10) →
      (GetBlockRange 10 5 20 1).1 = max ((1 : Int) * 10) 5 ∧
      (GetBlockRange 10 5 20 1).2 =
        min ((1 : Int) * 10 + 10) (5 + 20) - max ((1 : Int) * 10) 5 ∧
      (1 : Int) * 10 ≤ (GetBlockRange 10 5 20 1).1 ∧
      (GetBlockRange 10 5 20 1).1 + (GetBlockRange 10 5 20 1).2 ≤ (1 : Int) * 10 + 10) := by
  refine ⟨by decide, by decide, by decide, ?_⟩
  exact getBlockRange_window 10 5 20 1 (by decide) (by decide) (by decide)

/-- C10: for every offset ≥ 0 and every length, including length ≤ 0,
GetFirstAndLastBlockID returns first ≤ last (last clamped up to first when
the window is empty), and GetBlockIDs returns the non-empty consecutive
list first, first+1, ..., last; for an empty or degenerate window it is the
single block id containing offset. -/
theorem getBlockIDs_consecutive_nonempty (B offset length : Int)
    (hoff : 0 ≤ offset) (hB : 0 < B) :
    (GetFirstAndLastBlockID B offset length).1 ≤ (GetFirstAndLastBlockID B offset length).2 ∧
    GetBlockIDs B offset length =
      (List.range ((GetFirstAndLastBlockID B offset length).2 + 1 -
          (GetFirstAndLastBlockID B offset length).1).toNat).map
        (fun k : Nat => (GetFirstAndLastBlockID B offset length).1 + (k : Int)) ∧
    GetBlockIDs B offset length ≠ [] ∧
    (length ≤ 0 → GetBlockIDs B offset length = [GetBlockIDForOffset B offset]) := by
  have hfl : (GetFirstAndLastBlockID B offset length).1 ≤
      (GetFirstAndLastBlockID B offset length).2 := by
    simp only [GetFirstAndLastBlockID]
    split
    · simp
    · rename_i h
      simp only
      omega
  have hids : GetBlockIDs B offset length =
      (List.range ((GetFirstAndLastBlockID B offset length).2 + 1 -
          (GetFirstAndLastBlockID B offset length).1).toNat).map
        (fun k : Nat => (GetFirstAndLastBlockID B offset length).1 + (k : Int)) := by
    unfold GetBlockIDs
    exact blockIDLoop_eq_range _ _ _ rfl
  refine ⟨hfl, hids, ?_, ?_⟩
  · rw [hids]
    intro hnil
    have := congrArg List.length hnil
    simp at this
    omega
  · intro hlen
    have hle : GetBlockIDForOffset B (offset + (length - 1)) ≤ GetBlockIDForOffset B offset := by
      unfold GetBlockIDForOffset
      exact tdiv_le_tdiv_of_le hB hoff (by omega)
    have hfl2 : GetFirstAndLastBlockID B offset length =
        (GetBlockIDForOffset B offset, GetBlockIDForOffset B offset) := by
      simp only [GetFirstAndLastBlockID]
      split
      · rfl
      · rename_i h
        simp only [Prod.mk.injEq, true_and]
        omega
    rw [hids, hfl2]
    have h1 : ((GetBlockIDForOffset B offset, GetBlockIDForOffset B offset).2 + 1 -
        (GetBlockIDForOffset B offset, GetBlockIDForOffset B offset).1).toNat = 1 := by
      simp
    rw [h1, show List.range 1 = [0] from rfl]
    simp

/-- C10 witness: an empty window (length 0) still yields one block id. -/
theorem getBlockIDs_consecutive_nonempty_witness :
    (0 : Int) ≤ 25 ∧ (0 : Int) < 10 ∧
    GetBlockIDs 10 25 0 ≠ [] ∧
    ((0 : Int) ≤ 0 → GetBlockIDs 10 25 0 = [GetBlockIDForOffset 10 25]) := by
  have h := getBlockIDs_consecutive_nonempty 10 25 0 (by decide) (by decide)
  exact ⟨by decide, by decide, h.2.2.1, fun _ => h.2.2.2 (by decide)⟩

end BlockHelper

namespace BlockTransfer

/-- One operation keeps the completed flag, keeps a clean failed flag once
completed, and never shrinks the buffer. -/
theorem applyOp_step_props (t : State) (op : Op) :
    (t.completed = true → (applyOp t op).completed = true) ∧
    (t.completed = true → t.failed = false → (applyOp t op).failed = false) ∧
    t.buffer.length ≤ (applyOp t op).buffer.length := by
  cases op with
  | write buffer =>
    refine ⟨fun h => h, fun _ h => h, ?_⟩
    simp [applyOp, Write]
  | markFailed =>
    simp only [applyOp, MarkFailed]
    by_cases h : t.completed = false
    · rw [if_pos h]
      exact ⟨fun hc => by simp_all, fun hc => by simp_all, le_refl _⟩
    · rw [if_neg h]
      exact ⟨fun hc => hc, fun _ hf => hf, le_refl _⟩
  | markCompleted eof =>
    exact ⟨fun _ => rfl, fun _ _ => rfl, le_refl _⟩

/-- Folding a history of operations keeps the completed flag together with a
clean failed flag, and never shrinks the buffer. -/
theorem applyOps_props (more : List Op) :
    ∀ t : State,
      (t.completed = true → t.failed = false →
        (applyOps t more).completed = true ∧ (applyOps t more).failed = false) ∧
      t.buffer.length ≤ (applyOps t more).buffer.length := by
  induction more with
  | nil => exact fun t => ⟨fun hc hf => ⟨hc, hf⟩, le_refl _⟩
  | cons op rest ih =>
    intro t
    have hstep := applyOp_step_props t op
    have hrest := ih (applyOp t op)
    constructor
    · intro hc hf
      exact hrest.1 (hstep.1 hc) (hstep.2.1 hc hf)
    · exact le_trans hstep.2.2 hrest.2

/-- Any history from a fresh transfer ends completed only with a clean
failed flag. -/
theorem applyOps_completed_not_failed (blockID : Int) (ops : List Op) :
    (applyOps (NewFileBlockTransfer blockID) ops).completed = true →
    (applyOps (NewFileBlockTransfer blockID) ops).failed = false := by
  suffices h : ∀ t : State, (t.completed = true → t.failed = false) →
      ((applyOps t ops).completed = true → (applyOps t ops).failed = false) by
    exact h (NewFileBlockTransfer blockID) (fun hc => by simp [NewFileBlockTransfer] at hc)
  induction ops with
  | nil => exact fun t ht => ht
  | cons op rest ih =>
    intro t ht
    apply ih
    intro hc
    cases op with
    | write buffer => exact ht hc
    | markFailed =>
      simp only [applyOp, MarkFailed] at hc ⊢
      by_cases h : t.completed = false
      · rw [if_pos h] at hc
        simp_all
      · rw [if_neg h] at hc ⊢
        exact ht hc
    | markCompleted eof => rfl

/-- C2 amended: for every FileBlockTransfer history, Completed is terminal —
once a history has made the transfer Completed, any further operations leave
it Completed and never make it Failed — and the buffer length never
decreases under any operation; however Failed is not terminal (see the
counterexample: MarkCompleted on a Failed transfer makes it Completed), and
Write appends regardless of state. -/
theorem transfer_completed_terminal_buffer_monotone (blockID : Int) (ops more : List Op) :
    ((applyOps (NewFileBlockTransfer blockID) ops).completed = true →
      (applyOps (applyOps (NewFileBlockTransfer blockID) ops) more).completed = true ∧
      (applyOps (applyOps (NewFileBlockTransfer blockID) ops) more).failed = false) ∧
    (applyOps (NewFileBlockTransfer blockID) ops).buffer.length ≤
      (applyOps (applyOps (NewFileBlockTransfer blockID) ops) more).buffer.length := by
  constructor
  · intro hc
    exact (applyOps_props more _).1 hc (applyOps_completed_not_failed blockID ops hc)
  · exact (applyOps_props more _).2

/-- C2 witness: a completed transfer stays completed and unfailed across
further operations, and its buffer does not shrink. -/
theorem transfer_completed_terminal_buffer_monotone_witness :
    (applyOps (NewFileBlockTransfer 0) [Op.markCompleted true]).completed = true ∧
    ((applyOps (applyOps (NewFileBlockTransfer 0) [Op.markCompleted true])
        [Op.markFailed, Op.write [3]]).completed = true ∧
      (applyOps (applyOps (NewFileBlockTransfer 0) [Op.markCompleted true])
        [Op.markFailed, Op.write [3]]).failed = false) ∧
    (applyOps (NewFileBlockTransfer 0) [Op.markCompleted true]).buffer.length ≤
      (applyOps (applyOps (NewFileBlockTransfer 0) [Op.markCompleted true])
        [Op.markFailed, Op.write [3]]).buffer.length :=
  ⟨rfl,
   (transfer_completed_terminal_buffer_monotone 0 [Op.markCompleted true]
      [Op.markFailed, Op.write [3]]).1 rfl,
   (transfer_completed_terminal_buffer_monotone 0 [Op.markCompleted true]
      [Op.markFailed, Op.write [3]]).2⟩

/-- C2 counterexample: the claim that a transfer marked Failed never later
becomes Completed, and that no bytes are appended once non-in-flight, is
false: MarkCompleted on a Failed transfer unconditionally sets completed and
clears failed, and Write appends to a Completed transfer's buffer. -/
theorem transfer_failed_becomes_completed_counterexample :
    (MarkFailed (NewFileBlockTransfer 0)).failed = true ∧
    (MarkCompleted (MarkFailed (NewFileBlockTransfer 0)) false).completed = true ∧
    (MarkCompleted (MarkFailed (NewFileBlockTransfer 0)) false).failed = false ∧
    (Write (MarkCompleted (MarkFailed (NewFileBlockTransfer 0)) false) [7]).buffer.length =
      (MarkCompleted (MarkFailed (NewFileBlockTransfer 0)) false).buffer.length + 1 :=
  ⟨rfl, rfl, rfl, rfl⟩

/-- C3 amended: WaitForData(size) returns only when the buffer holds at
least size bytes, or the transfer is Completed, or it is Failed (otherwise
it blocks); its result is true exactly when the buffer holds size bytes or
the transfer is Completed, and false exactly when the transfer is Failed,
not Completed, and the buffer is short — in particular it returns true on a
Failed transfer whose buffer already holds size bytes. -/
theorem waitForData_result_characterization (t : State) (size : Nat) :
    (WaitForDataResult t size = none ↔
      t.buffer.length < size ∧ t.completed = false ∧ t.failed = false) ∧
    (WaitForDataResult t size = some true ↔
      size ≤ t.buffer.length ∨ t.completed = true) ∧
    (WaitForDataResult t size = some false ↔
      t.buffer.length < size ∧ t.completed = false ∧ t.failed = true) := by
  obtain ⟨id, buf, eof, c, f⟩ := t
  simp only [WaitForDataResult]
  by_cases h : buf.length < size
  · rw [if_pos h]
    cases c <;> cases f <;> simp <;> omega
  · rw [if_neg h]
    cases c <;> cases f <;> simp <;> omega

/-- C3 counterexample: the claim that the result is true iff the transfer is
not Failed is false: a Failed transfer whose buffer already holds the
requested bytes returns true. -/
theorem waitForData_true_on_failed_counterexample :
    (MarkFailed (Write (NewFileBlockTransfer 0) [1, 2, 3, 4, 5])).failed = true ∧
    WaitForDataResult (MarkFailed (Write (NewFileBlockTransfer 0) [1, 2, 3, 4, 5])) 3 =
      some true :=
  ⟨rfl, rfl⟩

end BlockTransfer

namespace Prefetch

/-- A block id is returned by Determine only if it was not memoised before
the call and is memoised after it. -/
theorem determine_mem_out (pf : Prefetcher) (offset size id : Int) :
    id ∈ (Determine pf offset size).1 →
      id ∉ pf.prefetchMap ∧ id ∈ (Determine pf offset size).2.prefetchMap := by
  simp only [Determine]
  split_ifs with h1 h2 h3 h4
  · intro h
    simp at h
  · intro h
    simp at h
  · intro h
    simp only [List.mem_singleton] at h
    subst h
    exact ⟨h3, List.mem_cons_self _ _⟩
  · intro h
    simp at h
  · intro h
    simp only [List.mem_singleton] at h
    subst h
    exact ⟨h4, List.mem_cons_self _ _⟩

/-- The memo only grows across a Determine call. -/
theorem determine_memo_mono (pf : Prefetcher) (offset size id : Int) :
    id ∈ pf.prefetchMap → id ∈ (Determine pf offset size).2.prefetchMap := by
  intro h
  simp only [Determine]
  split_ifs with h1 h2 h3 h4
  · exact h
  · exact h
  · exact List.mem_cons_of_mem _ h
  · exact h
  · exact List.mem_cons_of_mem _ h

/-- A memoised id is never returned by any later sequence of calls. -/
theorem determineRun_memoised_never_returned (calls : List (Int × Int)) :
    ∀ (pf : Prefetcher) (id : Int), id ∈ pf.prefetchMap →
      (DetermineRun pf calls).countP (fun out => decide (id ∈ out)) = 0 := by
  induction calls with
  | nil => intro pf id _; rfl
  | cons call rest ih =>
    intro pf id hmem
    obtain ⟨offset, size⟩ := call
    simp only [DetermineRun, List.countP_cons]
    have hout : id ∉ (Determine pf offset size).1 := by
      intro hin
      exact ((determine_mem_out pf offset size id hin).1) hmem
    rw [ih (Determine pf offset size).2 id (determine_memo_mono pf offset size id hmem)]
    simp [hout]

/-- Across any sequence of Determine calls on one Prefetcher, a block id
appears in at most one call's result. -/
theorem determineRun_at_most_once (calls : List (Int × Int)) :
    ∀ (pf : Prefetcher) (id : Int),
      (DetermineRun pf calls).countP (fun out => decide (id ∈ out)) ≤ 1 := by
  induction calls with
  | nil => intro pf id; simp [DetermineRun]
  | cons call rest ih =>
    intro pf id
    obtain ⟨offset, size⟩ := call
    simp only [DetermineRun, List.countP_cons]
    by_cases hin : id ∈ (Determine pf offset size).1
    · have h0 := determineRun_memoised_never_returned rest (Determine pf offset size).2 id
        ((determine_mem_out pf offset size id hin).2)
      rw [h0]
      simp [hin]
    · have h1 := ih (Determine pf offset size).2 id
      simp [hin]
      exact h1

/-- C6 counterexample: the claim uses the exact threshold 0.3 x block_size,
but the source computes int(float32(blockSize) * prefetchTriggerRatio)
with float32 arithmetic, which for blockSize = 11 is 3 (the float32 product
is about 3.3000002, truncated to 3) while 0.3 x 11 = 3.3. At offset 3 in a
fresh Prefetcher with blockSize 11 and file size 22, the intra-block offset
is p = 3, and 3 < 3.3 (cross-multiplied below: 10 x 3 < 3 x 11), so the
claim demands an empty result, yet Determine returns [1]. -/
theorem determine_float_trigger_counterexample :
    10 * (3 : Int) < 3 * 11 ∧
    Int.tdiv 3 11 = 0 ∧
    (3 : Int) - Int.tdiv 3 11 * 11 = 3 ∧
    (Determine (NewPrefetcher 11) 3 22).1 = [1] := by
  refine ⟨by decide, by decide, by decide, by decide⟩

/-- C6 amended: for every Determine(offset, size) call with offset ≥ 0,
size > 0 and block size B > 0: with id = offset / B and intra-block offset
p = offset mod B, if p is strictly below the truncated float32 threshold
int(float32(B) * 0.3f) (not the exact 0.3 x B) the result is empty;
otherwise the candidate is id + 1, wrapping to 0 when id ≥ last_block_id =
(size - 1) / B; a memoised candidate yields an empty result, and otherwise
the candidate is memoised and returned as the one-element list — so each
block id is ever returned at most once per Prefetcher. -/
theorem determine_characterization (pf : Prefetcher) (offset size : Int)
    (hoff : 0 ≤ offset) (hsize : 0 < size) (hB : 0 < (pf.blockSize : Int)) :
    (offset % (pf.blockSize : Int) < (triggerPointInt pf.blockSize : Int) →
      Determine pf offset size = ([], pf)) ∧
    ((triggerPointInt pf.blockSize : Int) ≤ offset % (pf.blockSize : Int) →
      ((if offset / (pf.blockSize : Int) ≥ (size - 1) / (pf.blockSize : Int) then 0
          else offset / (pf.blockSize : Int) + 1) ∈ pf.prefetchMap →
        Determine pf offset size = ([], pf)) ∧
      ((if offset / (pf.blockSize : Int) ≥ (size - 1) / (pf.blockSize : Int) then 0
          else offset / (pf.blockSize : Int) + 1) ∉ pf.prefetchMap →
        Determine pf offset size =
          ([if offset / (pf.blockSize : Int) ≥ (size - 1) / (pf.blockSize : Int) then 0
              else offset / (pf.blockSize : Int) + 1],
           { pf with prefetchMap :=
              (if offset / (pf.blockSize : Int) ≥ (size - 1) / (pf.blockSize : Int) then 0
                else offset / (pf.blockSize : Int) + 1) :: pf.prefetchMap }))) ∧
    (∀ (pf0 : Prefetcher) (calls : List (Int × Int)) (id : Int),
      (DetermineRun pf0 calls).countP (fun out => decide (id ∈ out)) ≤ 1) := by
  have htd : Int.tdiv offset (pf.blockSize : Int) = offset / (pf.blockSize : Int) :=
    Int.tdiv_eq_ediv hoff (le_of_lt hB)
  have htd2 : Int.tdiv (size - 1) (pf.blockSize : Int) = (size - 1) / (pf.blockSize : Int) :=
    Int.tdiv_eq_ediv (by omega) (le_of_lt hB)
  have hmod : offset - offset / (pf.blockSize : Int) * (pf.blockSize : Int) =
      offset % (pf.blockSize : Int) := by
    rw [Int.emod_def]
    ring
  refine ⟨?_, ?_, fun pf0 calls id => determineRun_at_most_once calls pf0 id⟩
  · intro h
    simp only [Determine, BlockHelper.GetBlockIDForOffset, BlockHelper.GetBlockStartOffset,
      BlockHelper.GetLastBlockID, htd, htd2, hmod]
    rw [if_pos h]
  · intro h
    constructor
    · intro hmem
      simp only [Determine, BlockHelper.GetBlockIDForOffset, BlockHelper.GetBlockStartOffset,
        BlockHelper.GetLastBlockID, htd, htd2, hmod]
      rw [if_neg (not_lt.mpr h), if_pos hmem]
    · intro hmem
      simp only [Determine, BlockHelper.GetBlockIDForOffset, BlockHelper.GetBlockStartOffset,
        BlockHelper.GetLastBlockID, htd, htd2, hmod]
      rw [if_neg (not_lt.mpr h), if_neg hmem]

/-- C6 witness: blockSize 10, offset 3, size 25: the intra-block offset 3
reaches the threshold 3, the candidate is block 1, not memoised, so it is
returned and memoised. -/
theorem determine_characterization_witness :
    (0 : Int) ≤ 3 ∧ (0 : Int) < 25 ∧ (0 : Int) < ((NewPrefetcher 10).blockSize : Int) ∧
    (((triggerPointInt (NewPrefetcher 10).blockSize : Int) ≤
        3 % ((NewPrefetcher 10).blockSize : Int)) ∧
      (if (3 : Int) / ((NewPrefetcher 10).blockSize : Int) ≥
          ((25 : Int) - 1) / ((NewPrefetcher 10).blockSize : Int) then 0
        else (3 : Int) / ((NewPrefetcher 10).blockSize : Int) + 1) ∉
        (NewPrefetcher 10).prefetchMap) ∧
    Determine (NewPrefetcher 10) 3 25 =
      ([if (3 : Int) / ((NewPrefetcher 10).blockSize : Int) ≥
            ((25 : Int) - 1) / ((NewPrefetcher 10).blockSize : Int) then 0
          else (3 : Int) / ((NewPrefetcher 10).blockSize : Int) + 1],
       { NewPrefetcher 10 with prefetchMap :=
          (if (3 : Int) / ((NewPrefetcher 10).blockSize : Int) ≥
              ((25 : Int) - 1) / ((NewPrefetcher 10).blockSize : Int) then 0
            else (3 : Int) / ((NewPrefetcher 10).blockSize : Int) + 1) ::
            (NewPrefetcher 10).prefetchMap }) := by
  refine ⟨by decide, by decide, by decide, ⟨by decide, by decide⟩, ?_⟩
  exact (((determine_characterization (NewPrefetcher 10) 3 25 (by decide) (by decide)
    (by decide)).2.1 (by decide)).2 (by decide))

end Prefetch

namespace BufferedW

/-- Appending one base write whose offset continues the trace keeps the
telescoping property. -/
theorem telescopes_append (tr : List (Int × List Nat)) :
    ∀ (base o : Int) (d : List Nat),
      telescopes tr base → o = base + traceBytes tr → telescopes (tr ++ [(o, d)]) base := by
  induction tr with
  | nil =>
    intro base o d _ ho
    simp [traceBytes] at ho
    exact ⟨ho, trivial⟩
  | cons e rest ih =>
    intro base o d htel ho
    obtain ⟨o1, d1⟩ := e
    obtain ⟨he, hrest⟩ := htel
    refine ⟨he, ih (base + d1.length) o d hrest ?_⟩
    simp [traceBytes] at ho ⊢
    omega

/-- Bytes of a trace extended by one write. -/
theorem traceBytes_append_single (tr : List (Int × List Nat)) (o : Int) (d : List Nat) :
    traceBytes (tr ++ [(o, d)]) = traceBytes tr + d.length := by
  simp [traceBytes]

/-- A trace all of whose writes carry at least HW bytes delivers at least
trace length times HW bytes. -/
theorem trace_length_mul_le (HW : Nat) (tr : List (Int × List Nat))
    (h : ∀ e ∈ tr, HW ≤ e.2.length) : tr.length * HW ≤ traceBytes tr := by
  induction tr with
  | nil => simp [traceBytes]
  | cons e rest ih =>
    have hrest := ih (fun x hx => h x (List.mem_cons_of_mem _ hx))
    have hhead := h e (List.mem_cons_self _ _)
    simp only [traceBytes, List.map_cons, List.sum_cons, List.length_cons] at *
    have hmul : (rest.length + 1) * HW = rest.length * HW + HW := by ring
    omega

/-- Computed form of WriteAt on a contiguous write that stays below the
high-water mark. -/
theorem WriteAt_contiguous_keep (w : State) (d : List Nat) (offset : Int)
    (hd : d.length ≠ 0) (hoff : 0 ≤ offset)
    (hbuf : 0 < w.buffer.length)
    (hcont : w.currentBufferStartOffset + (w.buffer.length : Int) = offset)
    (hsp : w.buffer.length + d.length < w.bufferSize) :
    WriteAt w d offset = { w with buffer := w.buffer ++ d } := by
  simp only [WriteAt]
  split_ifs with h1 h2 h3 <;> simp only [List.length_append] at * <;> first
    | rfl
    | omega

/-- Computed form of WriteAt on a contiguous write that reaches the
high-water mark and spills. -/
theorem WriteAt_contiguous_spill (w : State) (d : List Nat) (offset : Int)
    (hd : d.length ≠ 0) (hoff : 0 ≤ offset)
    (hbuf : 0 < w.buffer.length)
    (hcont : w.currentBufferStartOffset + (w.buffer.length : Int) = offset)
    (hsp : w.bufferSize ≤ w.buffer.length + d.length) :
    WriteAt w d offset =
      { buffer := [], currentBufferStartOffset := 0, bufferSize := w.bufferSize,
        baseWrites := w.baseWrites ++ [(w.currentBufferStartOffset, w.buffer ++ d)] } := by
  simp only [WriteAt, spillBuffer]
  split_ifs with h1 h2 h3 h4 <;> simp only [List.length_append] at * <;> first
    | rfl
    | omega

/-- Computed form of WriteAt on an empty buffer when the write stays below
the high-water mark. -/
theorem WriteAt_empty_keep (w : State) (d : List Nat) (offset : Int)
    (hd : d.length ≠ 0) (hoff : 0 ≤ offset)
    (hbuf : w.buffer.length = 0)
    (hsp : w.buffer.length + d.length < w.bufferSize) :
    WriteAt w d offset =
      { w with buffer := w.buffer ++ d, currentBufferStartOffset := offset } := by
  simp only [WriteAt]
  split_ifs with h1 h2 h3 <;> simp only [List.length_append] at * <;> first
    | rfl
    | omega

/-- Computed form of WriteAt on an empty buffer when the write reaches the
high-water mark and spills at the write's own offset. -/
theorem WriteAt_empty_spill (w : State) (d : List Nat) (offset : Int)
    (hd : d.length ≠ 0) (hoff : 0 ≤ offset)
    (hbuf : w.buffer.length = 0)
    (hsp : w.bufferSize ≤ w.buffer.length + d.length) :
    WriteAt w d offset =
      { buffer := [], currentBufferStartOffset := 0, bufferSize := w.bufferSize,
        baseWrites := w.baseWrites ++ [(offset, w.buffer ++ d)] } := by
  simp only [WriteAt, spillBuffer]
  split_ifs with h1 h2 h3 h4 <;> simp only [List.length_append] at * <;> first
    | rfl
    | omega

/-- One WriteAt at the running end of a contiguous run preserves the
coalescer invariant: the base-write trace telescopes from the run start,
the delivered plus buffered bytes equal the consumed bytes, a non-empty
buffer starts right after the delivered bytes, every base write carries at
least bufferSize bytes, and the buffer stays below bufferSize. -/
theorem writeAt_step_inv (w : State) (d : List Nat) (base : Int) (c : Nat)
    (hbase : 0 ≤ base) (hd : d ≠ [])
    (hHW : 0 < w.bufferSize)
    (h1 : telescopes w.baseWrites base)
    (h2 : traceBytes w.baseWrites + w.buffer.length = c)
    (h3 : w.buffer ≠ [] → w.currentBufferStartOffset = base + traceBytes w.baseWrites)
    (h4 : ∀ e ∈ w.baseWrites, w.bufferSize ≤ e.2.length)
    (h5 : w.buffer.length < w.bufferSize) :
    (WriteAt w d (base + c)).bufferSize = w.bufferSize ∧
    telescopes (WriteAt w d (base + c)).baseWrites base ∧
    traceBytes (WriteAt w d (base + c)).baseWrites + (WriteAt w d (base + c)).buffer.length =
      c + d.length ∧
    ((WriteAt w d (base + c)).buffer ≠ [] →
      (WriteAt w d (base + c)).currentBufferStartOffset =
        base + traceBytes (WriteAt w d (base + c)).baseWrites) ∧
    (∀ e ∈ (WriteAt w d (base + c)).baseWrites, w.bufferSize ≤ e.2.length) ∧
    (WriteAt w d (base + c)).buffer.length < w.bufferSize := by
  have hdlen : d.length ≠ 0 := fun h => hd (List.eq_nil_of_length_eq_zero h)
  have hoff : (0 : Int) ≤ base + c := by omega
  by_cases hbuf : 0 < w.buffer.length
  · have hne : w.buffer ≠ [] := by
      intro hnil
      rw [hnil] at hbuf
      simp at hbuf
    have hstart := h3 hne
    have hcont : w.currentBufferStartOffset + (w.buffer.length : Int) = base + c := by
      omega
    by_cases hsp : w.bufferSize ≤ w.buffer.length + d.length
    · rw [WriteAt_contiguous_spill w d (base + c) hdlen hoff hbuf hcont hsp]
      refine ⟨rfl, ?_, ?_, ?_, ?_, ?_⟩
      · exact telescopes_append _ base _ _ h1 hstart
      · rw [traceBytes_append_single]
        simp only [List.length_append, List.length_nil]
        omega
      · intro hfalse
        exact absurd rfl hfalse
      · intro e he
        rcases List.mem_append.mp he with hold | hnew
        · exact h4 e hold
        · simp only [List.mem_singleton] at hnew
          subst hnew
          simp only [List.length_append]
          omega
      · simpa using hHW
    · rw [WriteAt_contiguous_keep w d (base + c) hdlen hoff hbuf hcont (by omega)]
      refine ⟨rfl, h1, ?_, ?_, h4, ?_⟩
      · simp only [List.length_append]
        omega
      · intro _
        exact hstart
      · simp only [List.length_append]
        omega
  · have hblen : w.buffer.length = 0 := by omega
    by_cases hsp : w.bufferSize ≤ w.buffer.length + d.length
    · rw [WriteAt_empty_spill w d (base + c) hdlen hoff hblen hsp]
      refine ⟨rfl, ?_, ?_, ?_, ?_, ?_⟩
      · refine telescopes_append _ base _ _ h1 ?_
        omega
      · rw [traceBytes_append_single]
        simp only [List.length_append, List.length_nil]
        omega
      · intro hfalse
        exact absurd rfl hfalse
      · intro e he
        rcases List.mem_append.mp he with hold | hnew
        · exact h4 e hold
        · simp only [List.mem_singleton] at hnew
          subst hnew
          simp only [List.length_append]
          omega
      · simpa using hHW
    · rw [WriteAt_empty_keep w d (base + c) hdlen hoff hblen (by omega)]
      refine ⟨rfl, h1, ?_, ?_, h4, ?_⟩
      · simp only [List.length_append]
        omega
      · intro _
        simp only
        omega
      · simp only [List.length_append]
        omega

/-- The coalescer invariant is preserved along a whole contiguous run. -/
theorem writeRun_inv (ds : List (List Nat)) :
    ∀ (w : State) (base : Int) (c : Nat),
      0 ≤ base → (∀ d ∈ ds, d ≠ []) → 0 < w.bufferSize →
      telescopes w.baseWrites base →
      traceBytes w.baseWrites + w.buffer.length = c →
      (w.buffer ≠ [] → w.currentBufferStartOffset = base + traceBytes w.baseWrites) →
      (∀ e ∈ w.baseWrites, w.bufferSize ≤ e.2.length) →
      w.buffer.length < w.bufferSize →
      (writeRun w (base + c) ds).bufferSize = w.bufferSize ∧
      telescopes (writeRun w (base + c) ds).baseWrites base ∧
      traceBytes (writeRun w (base + c) ds).baseWrites +
        (writeRun w (base + c) ds).buffer.length = c + (ds.map List.length).sum ∧
      ((writeRun w (base + c) ds).buffer ≠ [] →
        (writeRun w (base + c) ds).currentBufferStartOffset =
          base + traceBytes (writeRun w (base + c) ds).baseWrites) ∧
      (∀ e ∈ (writeRun w (base + c) ds).baseWrites, w.bufferSize ≤ e.2.length) ∧
      (writeRun w (base + c) ds).buffer.length < w.bufferSize := by
  induction ds with
  | nil =>
    intro w base c hbase _ hHW ht hs h3 h4 h5
    simp only [writeRun, List.map_nil, List.sum_nil, Nat.add_zero]
    exact ⟨trivial, ht, hs, h3, h4, h5⟩
  | cons d rest ih =>
    intro w base c hbase hne hHW ht hs h3 h4 h5
    have hstep := writeAt_step_inv w d base c hbase (hne d (List.mem_cons_self _ _)) hHW ht hs h3 h4 h5
    simp only [writeRun]
    have hoffeq : (base + (c : Int)) + (d.length : Int) = base + ((c + d.length : Nat) : Int) := by
      push_cast
      ring
    rw [hoffeq]
    have hrec := ih (WriteAt w d (base + c)) base (c + d.length) hbase
      (fun x hx => hne x (List.mem_cons_of_mem _ hx))
      (by rw [hstep.1]; exact hHW)
      hstep.2.1 hstep.2.2.1 hstep.2.2.2.1
      (by rw [hstep.1]; exact hstep.2.2.2.2.1)
      (by rw [hstep.1]; exact hstep.2.2.2.2.2)
    refine ⟨by rw [hrec.1, hstep.1], hrec.2.1, ?_, hrec.2.2.2.1, ?_, ?_⟩
    · rw [hrec.2.2.1]
      simp only [List.map_cons, List.sum_cons]
      omega
    · intro e he
      rw [← hstep.1]
      exact hrec.2.2.2.2.1 e he
    · rw [← hstep.1]
      exact hrec.2.2.2.2.2

/-- C7: for every sequence of WriteAt calls on the buffered coalescer whose
offsets form a strictly contiguous run of total bytes sized total, the inner
writer receives at most ceiling(total / bufferSize) + 1 distinct WriteAt
calls (counting the final Flush), and each inner call's offset is the run
start plus the lengths of the prior coalesced writes. bufferSize is the
high-water mark; src/unnamed/part_010 instantiates it with
bufferedWriterBufferSizeMax = 8 MiB. -/
theorem bufferedWriter_contiguous_coalescing (HW : Nat) (hHW : 0 < HW)
    (off0 : Int) (hoff : 0 ≤ off0) (ds : List (List Nat)) (hne : ∀ d ∈ ds, d ≠ []) :
    telescopes (Flush (writeRun (NewSyncBufferedWriter HW) off0 ds)).baseWrites off0 ∧
    (Flush (writeRun (NewSyncBufferedWriter HW) off0 ds)).baseWrites.length ≤
      ((ds.map List.length).sum + HW - 1) / HW + 1 := by
  have h := writeRun_inv ds (NewSyncBufferedWriter HW) off0 0 hoff hne
    (by simpa [NewSyncBufferedWriter] using hHW)
    (by simp [NewSyncBufferedWriter, telescopes])
    (by simp [NewSyncBufferedWriter, traceBytes])
    (by intro hfalse; simp [NewSyncBufferedWriter] at hfalse)
    (by intro e he; simp [NewSyncBufferedWriter] at he)
    (by simpa [NewSyncBufferedWriter] using hHW)
  rw [show off0 + ((0 : Nat) : Int) = off0 by simp] at h
  obtain ⟨hsz, htel, hsum, hstart, hbig, hlt⟩ := h
  set wfin := writeRun (NewSyncBufferedWriter HW) off0 ds with hwfin
  have hszHW : wfin.bufferSize = HW := by
    rw [hsz]
    rfl
  have htotal : traceBytes wfin.baseWrites ≤ (ds.map List.length).sum := by
    omega
  have hcount : wfin.baseWrites.length ≤ (ds.map List.length).sum / HW := by
    rw [Nat.le_div_iff_mul_le hHW]
    calc wfin.baseWrites.length * HW ≤ traceBytes wfin.baseWrites := by
          apply trace_length_mul_le
          intro e he
          have hb2 := hbig e he
          simp only [NewSyncBufferedWriter] at hb2
          exact hb2
      _ ≤ (ds.map List.length).sum := htotal
  have hdivle : (ds.map List.length).sum / HW ≤ ((ds.map List.length).sum + HW - 1) / HW :=
    Nat.div_le_div_right (by omega)
  simp only [Flush, spillBuffer]
  by_cases hb : 0 < wfin.buffer.length
  · rw [if_pos hb]
    constructor
    · apply telescopes_append _ off0 _ _ htel
      apply hstart
      intro hnil
      rw [hnil] at hb
      simp at hb
    · simp only [List.length_append, List.length_cons, List.length_nil]
      omega
  · rw [if_neg hb]
    refine ⟨htel, ?_⟩
    dsimp only
    omega

/-- C7 witness: two contiguous writes then Flush through a coalescer with
the 8 MiB high-water mark yield a telescoping trace of at most the claimed
number of inner calls. -/
theorem bufferedWriter_contiguous_coalescing_witness :
    (0 : Nat) < bufferedWriterBufferSizeMax ∧ (0 : Int) ≤ 0 ∧
    (∀ d ∈ [[1], [2, 3]], d ≠ []) ∧
    telescopes
      (Flush (writeRun (NewSyncBufferedWriter bufferedWriterBufferSizeMax) 0 [[1], [2, 3]])).baseWrites 0 ∧
    (Flush (writeRun (NewSyncBufferedWriter bufferedWriterBufferSizeMax) 0
        [[1], [2, 3]])).baseWrites.length ≤
      (([[1], [2, 3]].map List.length).sum + bufferedWriterBufferSizeMax - 1) /
        bufferedWriterBufferSizeMax + 1 := by
  refine ⟨by decide, by decide, by decide, ?_, ?_⟩
  · exact (bufferedWriter_contiguous_coalescing bufferedWriterBufferSizeMax (by decide) 0
      (by decide) [[1], [2, 3]] (by decide)).1
  · exact (bufferedWriter_contiguous_coalescing bufferedWriterBufferSizeMax (by decide) 0
      (by decide) [[1], [2, 3]] (by decide)).2

end BufferedW

namespace AsyncW

/-- In every reachable state, the wait-group counter equals the number of
queued blocks: WriteAt adds one to each together, the worker removes one
from each together. -/
theorem reachable_waitCount_eq {E : Type} (s : State E) (hreach : Reachable s) :
    s.waitCount = s.queue.length := by
  induction hreach with
  | init => rfl
  | step hr hstep ih =>
    cases hstep with
    | submit data offset hd hoff herr hlt =>
      simp only [List.length_append, List.length_cons, List.length_nil]
      omega
    | workerSkip e b rest herr hq =>
      rw [hq] at ih
      simp only [List.length_cons] at ih
      simp only
      omega
    | workerWrite b rest herr hq =>
      rw [hq] at ih
      simp only [List.length_cons] at ih
      simp only
      omega
    | workerWriteFail b rest e herr hq hlen =>
      rw [hq] at ih
      simp only [List.length_cons] at ih
      simp only
      omega

/-- C4: the channel-based AsyncWriter's write queue is bounded with capacity
10: every reachable state holds at most 10 queued blocks, and from a state
with 10 queued blocks no submit step is possible — the producer blocks until
the worker drains an entry. -/
theorem asyncWriter_queue_capacity {E : Type} (s : State E) (hreach : Reachable s) :
    s.queue.length ≤ 10 ∧
    (s.queue.length = 10 → ∀ (data : List Nat) (offset : Int) (s2 : State E),
      ¬ Step s (.submit data offset) s2) := by
  have hinv : s.queue.length ≤ 10 := by
    induction hreach with
    | init => simp [init]
    | step hr hstep ih =>
      cases hstep with
      | submit data offset hd hoff herr hlt =>
        simp only [List.length_append, List.length_cons, List.length_nil]
        omega
      | workerSkip e b rest herr hq =>
        rw [hq] at ih
        simp only [List.length_cons] at ih
        simp only
        omega
      | workerWrite b rest herr hq =>
        rw [hq] at ih
        simp only [List.length_cons] at ih
        simp only
        omega
      | workerWriteFail b rest e herr hq hlen =>
        rw [hq] at ih
        simp only [List.length_cons] at ih
        simp only
        omega
  refine ⟨hinv, ?_⟩
  intro h10 data offset s2 hstep
  cases hstep with
  | submit data offset hd hoff herr hlt => omega

/-- C4 witness: the initial state is reachable and satisfies the bound. -/
theorem asyncWriter_queue_capacity_witness :
    Reachable (init Nat) ∧
    (init Nat).queue.length ≤ 10 ∧
    ((init Nat).queue.length = 10 → ∀ (data : List Nat) (offset : Int) (s2 : State Nat),
      ¬ Step (init Nat) (.submit data offset) s2) :=
  ⟨Reachable.init, (asyncWriter_queue_capacity (init Nat) Reachable.init).1,
    (asyncWriter_queue_capacity (init Nat) Reachable.init).2⟩

/-- The worker's drain-only mode after an error pops every queued block,
releases one wait-group slot per block, writes nothing to the base writer
and keeps the recorded error. -/
theorem workerDrain_spec {E : Type} (e : E) :
    ∀ (q : List WriteBlock) (wc : Nat) (le : Option E) (bw : List WriteBlock),
      le = some e →
      workerDrainAfterError (State.mk q wc le bw) = State.mk [] (wc - q.length) le bw := by
  intro q
  induction q with
  | nil =>
    intro wc le bw hle
    rw [workerDrainAfterError]
    rfl
  | cons b rest ih =>
    intro wc le bw hle
    rw [workerDrainAfterError]
    subst hle
    simp only [Option.isSome_some, if_true]
    rw [ih (wc - 1) (some e) bw rfl]
    have harith : wc - 1 - rest.length = wc - (b :: rest).length := by
      simp only [List.length_cons]
      omega
    rw [harith]

/-- C1: once the channel-based AsyncWriter's worker has recorded a write
error, the error persists across every step; every subsequent WriteAt with
non-empty data and nonnegative offset fails fast, returning the wrapped
first error without changing the state; the worker drains the whole queue
dropping the work while releasing the wait-group down to zero and writing
nothing further to the base writer; and Flush, once unblocked, returns the
first error (when the inner flush itself succeeds). -/
theorem asyncWriter_error_failfast_drain {E : Type} (s : State E) (e : E)
    (hreach : Reachable s) (herr : s.lastError = some e) :
    (∀ (l : Label E) (s2 : State E), Step s l s2 → s2.lastError = some e) ∧
    (∀ (data : List Nat) (offset : Int), data ≠ [] → 0 ≤ offset →
      writeAt s data offset = some (s, .error (.scheduleFailed offset data.length e))) ∧
    (workerDrainAfterError s).queue = [] ∧
    (workerDrainAfterError s).waitCount = 0 ∧
    (workerDrainAfterError s).baseWrites = s.baseWrites ∧
    (workerDrainAfterError s).lastError = some e ∧
    flushResult (workerDrainAfterError s) none = some e := by
  have hwc := reachable_waitCount_eq s hreach
  obtain ⟨q, wc, le, bw⟩ := s
  simp only at herr hwc
  have hdrain := workerDrain_spec e q wc le bw herr
  refine ⟨?_, ?_, ?_, ?_, ?_, ?_, ?_⟩
  · intro l s2 hstep
    cases hstep with
    | submit data offset hd hoff herr2 hlt => rw [herr] at herr2; cases herr2
    | workerSkip e2 b rest herr2 hq => exact herr
    | workerWrite b rest herr2 hq => rw [herr] at herr2; cases herr2
    | workerWriteFail b rest e2 herr2 hq hlen => rw [herr] at herr2; cases herr2
  · intro data offset hd hoff
    have hcond : ¬(data.length = 0 ∨ offset < 0) := by
      push_neg
      exact ⟨fun hh => hd (List.eq_nil_of_length_eq_zero hh), hoff⟩
    simp only [writeAt, if_neg hcond, herr]
  · rw [hdrain]
  · rw [hdrain]
    simp only
    omega
  · rw [hdrain]
  · rw [hdrain]
    exact herr
  · rw [hdrain]
    simp only [flushResult]
    exact herr

/-- C1 witness: a reachable state with a recorded error and one still-queued
block: the reached state fails fast on WriteAt, and draining empties the
queue, zeroes the wait-group, writes nothing, and Flush yields the error. -/
theorem asyncWriter_error_failfast_drain_witness :
    writeAt (State.mk (E := Nat) [WriteBlock.mk 1 [2]] 1 (some 5) []) [9] 4 =
      some (State.mk [WriteBlock.mk 1 [2]] 1 (some 5) [],
        .error (.scheduleFailed 4 1 5)) ∧
    (workerDrainAfterError (State.mk (E := Nat) [WriteBlock.mk 1 [2]] 1 (some 5) [])).queue = [] ∧
    (workerDrainAfterError (State.mk (E := Nat) [WriteBlock.mk 1 [2]] 1 (some 5) [])).waitCount = 0 ∧
    (workerDrainAfterError (State.mk (E := Nat) [WriteBlock.mk 1 [2]] 1 (some 5) [])).baseWrites =
      (State.mk (E := Nat) [WriteBlock.mk 1 [2]] 1 (some 5) []).baseWrites ∧
    flushResult (workerDrainAfterError (State.mk (E := Nat) [WriteBlock.mk 1 [2]] 1 (some 5) []))
      none = some 5 := by
  have h1 : Step (init Nat) (.submit [1] 0) (State.mk [WriteBlock.mk 0 [1]] 1 none []) :=
    Step.submit (init Nat) [1] 0 (by decide) (by decide) rfl (by decide)
  have h2 : Step (State.mk (E := Nat) [WriteBlock.mk 0 [1]] 1 none []) (.submit [2] 1)
      (State.mk [WriteBlock.mk 0 [1], WriteBlock.mk 1 [2]] 2 none []) :=
    Step.submit _ [2] 1 (by decide) (by decide) rfl (by decide)
  have h3 : Step (State.mk (E := Nat) [WriteBlock.mk 0 [1], WriteBlock.mk 1 [2]] 2 none [])
      (.workerWriteFail 5) (State.mk [WriteBlock.mk 1 [2]] 1 (some 5) []) :=
    Step.workerWriteFail _ (WriteBlock.mk 0 [1]) [WriteBlock.mk 1 [2]] 5 rfl rfl (by decide)
  have hr : Reachable (State.mk (E := Nat) [WriteBlock.mk 1 [2]] 1 (some 5) []) :=
    Reachable.step (Reachable.step (Reachable.step Reachable.init h1) h2) h3
  have h := asyncWriter_error_failfast_drain _ 5 hr rfl
  exact ⟨h.2.1 [9] 4 (by decide) (by decide), h.2.2.1, h.2.2.2.1, h.2.2.2.2.1,
    h.2.2.2.2.2.2⟩

end AsyncW

namespace AsyncWBuf

/-- C9: a WriteAt on the buffer-entry-group AsyncWriter made while a pending
error exists returns that first pending error, yet it has already stored the
data in the buffer entry group and enqueued the key for the background
worker: the erroring call is not atomic and leaves the writer's state
changed (one more queued entry). -/
theorem writeAt_enqueues_despite_pending_error {E : Type} (cap : Nat) (s : State E)
    (data : List Nat) (offset : Int) (e : E)
    (herr : s.pendingErrors.head? = some e) (hd : data ≠ []) (hoff : 0 ≤ offset)
    (hcap : data.length ≤ cap) :
    writeAt cap s data offset =
      ({ s with entries := s.entries ++ [(offset, data)],
                queue := s.queue ++ [offset],
                waitCount := s.waitCount + 1 }, .error (.pending e)) ∧
    (writeAt cap s data offset).1.queue.length = s.queue.length + 1 := by
  have hcond : ¬(data.length = 0 ∨ offset < 0) := by
    push_neg
    exact ⟨fun hh => hd (List.eq_nil_of_length_eq_zero hh), hoff⟩
  have heq : writeAt cap s data offset =
      ({ s with entries := s.entries ++ [(offset, data)],
                queue := s.queue ++ [offset],
                waitCount := s.waitCount + 1 }, .error (.pending e)) := by
    simp only [writeAt, if_neg hcond, if_neg (not_lt.mpr hcap), herr]
  refine ⟨heq, ?_⟩
  rw [heq]
  simp

/-- C9 witness: a concrete writer with pending error 7 accepts and enqueues
the write, yet returns the error. -/
theorem writeAt_enqueues_despite_pending_error_witness :
    writeAt (E := Nat) 10 (State.mk [] [] 0 [7]) [1, 2] 0 =
      (State.mk [(0, [1, 2])] [0] 1 [7], .error (.pending 7)) ∧
    (writeAt (E := Nat) 10 (State.mk [] [] 0 [7]) [1, 2] 0).1.queue.length =
      (State.mk (E := Nat) [] [] 0 [7]).queue.length + 1 :=
  writeAt_enqueues_despite_pending_error 10 (State.mk [] [] 0 [7]) [1, 2] 0 7
    rfl (by decide) (by decide) (by decide)

end AsyncWBuf

namespace BlockStore

/-- Lookup after creating an entry under the same key finds the new data. -/
theorem lookupEntry_createEntry_same (cs : CacheStore) (k : CacheKey) (g : String)
    (d : List Nat) : lookupEntry (CreateEntry cs k g d) k = some d := by
  unfold lookupEntry CreateEntry
  rw [List.find?_cons_of_pos _ (by simp)]
  rfl

/-- Lookup under a different key is unaffected by creating an entry. -/
theorem lookupEntry_createEntry_other (cs : CacheStore) (k k2 : CacheKey) (g : String)
    (d : List Nat) (h : k2 ≠ k) :
    lookupEntry (CreateEntry cs k g d) k2 = lookupEntry cs k2 := by
  unfold lookupEntry CreateEntry
  rw [List.find?_cons_of_neg _ (by simp; exact Ne.symm h)]

/-- Keys of distinct block ids are distinct. -/
theorem makeCacheKey_ne (store : State) (id1 id2 : Int) (h : id1 ≠ id2) :
    makeCacheKey store id1 ≠ makeCacheKey store id2 := by
  unfold makeCacheKey
  intro hk
  simp only [Prod.mk.injEq] at hk
  exact h hk.2.2

/-- C8: for every Put on a store with a shared cache attached: when the
block is full (buffer length = blockSize) and marked EOF, Put creates, in
addition to the block's own cache entry, a zero-length entry under the key
for blockID + 1 (the EOF sentinel); otherwise the cache at that key is left
exactly as it was. -/
theorem put_eof_sentinel (store : State) (block : FileBlock) (cs : CacheStore)
    (hcs : store.cacheStore = some cs) :
    ∃ cs2, (Put store block).cacheStore = some cs2 ∧
      ((block.buffer.length = store.blockSize ∧ block.eof = true) →
        lookupEntry cs2 (makeCacheKey store (block.blockID + 1)) = some []) ∧
      (¬(block.buffer.length = store.blockSize ∧ block.eof = true) →
        lookupEntry cs2 (makeCacheKey store (block.blockID + 1)) =
          lookupEntry cs (makeCacheKey store (block.blockID + 1))) ∧
      lookupEntry cs2 (makeCacheKey store block.blockID) = some block.buffer := by
  simp only [Put, hcs]
  by_cases hfull : block.buffer.length = store.blockSize ∧ block.eof = true
  · rw [if_pos hfull]
    refine ⟨_, rfl, fun _ => ?_, fun hn => absurd hfull hn, ?_⟩
    · exact lookupEntry_createEntry_same _ _ _ _
    · rw [lookupEntry_createEntry_other _ _ _ _ _
        (makeCacheKey_ne store block.blockID (block.blockID + 1) (by omega))]
      exact lookupEntry_createEntry_same _ _ _ _
  · rw [if_neg hfull]
    refine ⟨_, rfl, fun hf => absurd hf hfull, fun _ => ?_, ?_⟩
    · exact lookupEntry_createEntry_other _ _ _ _ _
        (makeCacheKey_ne store (block.blockID + 1) block.blockID (by omega))
    · exact lookupEntry_createEntry_same _ _ _ _

/-- C8 witness: a full EOF block in a store with an empty shared cache
creates the sentinel at blockID + 1. -/
theorem put_eof_sentinel_witness :
    ∃ cs2,
      (Put (State.mk "p" "ck" 2 [] (some [])) (FileBlock.mk 0 [5, 6] true)).cacheStore =
        some cs2 ∧
      (((FileBlock.mk 0 [5, 6] true).buffer.length = (State.mk "p" "ck" 2 [] (some [])).blockSize ∧
          (FileBlock.mk 0 [5, 6] true).eof = true) →
        lookupEntry cs2 (makeCacheKey (State.mk "p" "ck" 2 [] (some []))
          ((FileBlock.mk 0 [5, 6] true).blockID + 1)) = some []) ∧
      (¬((FileBlock.mk 0 [5, 6] true).buffer.length =
            (State.mk "p" "ck" 2 [] (some [])).blockSize ∧
          (FileBlock.mk 0 [5, 6] true).eof = true) →
        lookupEntry cs2 (makeCacheKey (State.mk "p" "ck" 2 [] (some []))
            ((FileBlock.mk 0 [5, 6] true).blockID + 1)) =
          lookupEntry [] (makeCacheKey (State.mk "p" "ck" 2 [] (some []))
            ((FileBlock.mk 0 [5, 6] true).blockID + 1))) ∧
      lookupEntry cs2 (makeCacheKey (State.mk "p" "ck" 2 [] (some []))
        (FileBlock.mk 0 [5, 6] true).blockID) = some (FileBlock.mk 0 [5, 6] true).buffer :=
  put_eof_sentinel (State.mk "p" "ck" 2 [] (some [])) (FileBlock.mk 0 [5, 6] true) [] rfl

end BlockStore
